import Mathlib

/-!
Verification of the rpi-fan-controller repository.

This file shallowly embeds the core logic of the fan-controller system:

* the serial frame reader (`serial_read_complete_command` /
  `read_complete_command` in the Pi-side daemons): a 512-byte static buffer
  (511 data bytes plus the null terminator) with sliding-window overflow and
  terminator scanning (CR LF first, then bare LF);
* the receiver daemon supervisor loop (`run_main_loop` / `run_daemon`):
  consecutive-error / consecutive-timeout / successful-exchange counters and
  the reconnect and health-probe policies;
* the Arduino-side endpoint table (`TemperatureSensor`), missed-poll
  disconnect detection (`handleMissedPoll`), the response parser
  (`parseTemperatureData`) and encoder (`temperature_format_response`);
* the actuator mapping (`FanController::calculateFanSpeed` /
  `updateFanSpeed`): the bounded parabolic fan curve and the
  write-only-on-change policy.

Temperatures are modelled as rationals where only comparisons and data flow
matter, and as reals where the curve exponent `pow(x, 2.5)` appears
(a real-valued idealization of the C `float` arithmetic).
-/

/-! ## Frame reader (src/unnamed/part_006 `serial_read_complete_command`,
    src/unnamed/part_007 `read_complete_command`)

The C buffer is `static char g_read_buffer[512]` with write cursor
`g_buffer_pos ≤ 511`; we model the first `g_buffer_pos` bytes as a
`List Char` (the null terminator at the cursor is the list's end). -/

/-- Capacity in data bytes: `sizeof(g_read_buffer) - 1 = 511`. -/
def bufCap : Nat := 511

/-- Append one incoming byte, C lines: `if (g_buffer_pos < 511) append else
    shift the whole buffer left one byte and store at index 510`
    (sliding-window overflow: oldest byte discarded). -/
def appendByte (buf : List Char) (c : Char) : List Char :=
  if buf.length < bufCap then buf ++ [c] else buf.tail ++ [c]

/-- The per-byte accumulation loop `for (int i = 0; i < bytes_read; i++)`. -/
def appendChunk (buf : List Char) (chunk : List Char) : List Char :=
  chunk.foldl appendByte buf

/-- First index `i` with `buf[i] = '\r'` and `buf[i+1] = '\n'`
    (the `\r\n` scan loop, tried first). -/
def findCRLF : List Char → Option Nat
  | [] => none
  | [_] => none
  | a :: b :: rest =>
    if a = '\r' ∧ b = '\n' then some 0
    else (findCRLF (b :: rest)).map (· + 1)

/-- First index holding a bare `\n` (the fallback scan loop). -/
def findLF : List Char → Option Nat
  | [] => none
  | c :: rest =>
    if c = '\n' then some 0
    else (findLF rest).map (· + 1)

/-- Terminator scan: `\r\n` anywhere first, else the first bare `\n`. -/
def findCmdEnd (buf : List Char) : Option Nat :=
  match findCRLF buf with
  | some i => some i
  | none => findLF buf

/-- `cmd_start`: skip leading stray `\n`/`\r` bytes before the terminator. -/
def skipCount (buf : List Char) (cmdEnd : Nat) : Nat :=
  ((buf.take cmdEnd).takeWhile (fun c => c = '\n' ∨ c = '\r')).length

/-- Length of the line ending removed together with the segment:
    2 if `\r\n` sits at `cmdEnd`, 1 if a bare `\n` does. -/
def termLen (buf : List Char) (cmdEnd : Nat) : Nat :=
  if buf[cmdEnd]? = some '\r' ∧ buf[cmdEnd + 1]? = some '\n' then 2
  else if buf[cmdEnd]? = some '\n' then 1
  else 0

/-- Remove everything up to and including the line ending
    (the `memmove` shift, or full clear when nothing remains). -/
def removeProcessed (buf : List Char) (cmdEnd : Nat) : List Char :=
  buf.drop (cmdEnd + termLen buf cmdEnd)

/-- One call to `serial_read_complete_command`/`read_complete_command`,
    driven by a queue of pending byte chunks (each chunk is what one
    `read(fd, temp_buf, 63)` returns).  An empty queue models the `select`
    timeout (return 0 with the buffer untouched); an empty chunk models
    `read` returning no bytes (return -1, buffer untouched).  On an invalid
    (empty or oversized) segment the C function removes the segment and
    recursively calls itself, which performs a fresh `select`/`read` — i.e.
    consumes the next pending chunk. -/
def readCall (outSize : Nat) : List Char → List (List Char) →
    List Char × List (List Char) × Option (List Char)
  | buf, [] => (buf, [], none)
  | buf, chunk :: rest =>
    if chunk.isEmpty then (buf, rest, none)
    else
      let buf1 := appendChunk buf chunk
      match findCmdEnd buf1 with
      | none => (buf1, rest, none)
      | some cmdEnd =>
        let cmdStart := skipCount buf1 cmdEnd
        let cmdLen := cmdEnd - cmdStart
        if 0 < cmdLen ∧ cmdLen < outSize then
          (removeProcessed buf1 cmdEnd, rest, some ((buf1.take cmdEnd).drop cmdStart))
        else
          readCall outSize (removeProcessed buf1 cmdEnd) rest

/-- Drive the reader as the daemon loop does: keep calling while data is
    pending, collecting the extracted commands and the final buffer.  The
    fuel only needs to cover the number of pending chunks, since every call
    consumes at least one chunk. -/
def runCalls (outSize : Nat) : Nat → List Char → List (List Char) →
    List (List Char) × List Char
  | 0, buf, _ => ([], buf)
  | _ + 1, buf, [] => ([], buf)
  | fuel + 1, buf, chunk :: rest =>
    match readCall outSize buf (chunk :: rest) with
    | (buf1, rest1, some cmd) =>
      let r := runCalls outSize fuel buf1 rest1
      (cmd :: r.1, r.2)
    | (buf1, rest1, none) =>
      let r := runCalls outSize fuel buf1 rest1
      (r.1, r.2)

/-- The ordered commands extracted when the byte stream arrives as the given
    chunks, one daemon-loop call per chunk (the caller's output buffer is
    `char buffer[256]`, so `size = 256`). -/
def commandsOfChunks (chunks : List (List Char)) : List (List Char) :=
  (runCalls 256 chunks.length [] chunks).1

/-- The frame-reader buffer contents left over after the stream. -/
def bufferOfChunks (chunks : List (List Char)) : List Char :=
  (runCalls 256 chunks.length [] chunks).2

example : commandsOfChunks [['A', '\n'], ['B', '\r', '\n']] = [['A'], ['B']] := by decide
example : commandsOfChunks [['A', '\n', 'B', '\r', '\n']] = [['A', '\n', 'B']] := by decide
example : commandsOfChunks [['\r', '\n'], ['P', 'O', 'L', 'L', '\r', '\n']] =
    [['P', 'O', 'L', 'L']] := by decide

/-! ### Basic facts about the scan on clean single frames -/

lemma appendByte_of_lt (buf : List Char) (c : Char) (h : buf.length < bufCap) :
    appendByte buf c = buf ++ [c] := by
  simp [appendByte, h]

lemma appendChunk_of_le (chunk : List Char) : ∀ buf : List Char,
    buf.length + chunk.length ≤ bufCap → appendChunk buf chunk = buf ++ chunk := by
  induction chunk with
  | nil => intro buf _; simp [appendChunk]
  | cons c cs ih =>
    intro buf h
    simp only [List.length_cons] at h
    have hlt : buf.length < bufCap := by omega
    have h2 : (buf ++ [c]).length + cs.length ≤ bufCap := by
      simp only [List.length_append, List.length_cons, List.length_nil]; omega
    simp only [appendChunk, List.foldl_cons, appendByte_of_lt buf c hlt]
    have := ih (buf ++ [c]) h2
    simp only [appendChunk] at this
    rw [this]; simp

lemma findCRLF_none (l : List Char) (h : '\n' ∉ l) : findCRLF l = none := by
  induction l with
  | nil => rfl
  | cons a rest ih =>
    cases rest with
    | nil => rfl
    | cons b rest' =>
      have hb : ¬(a = '\r' ∧ b = '\n') := by
        rintro ⟨-, rfl⟩
        exact h (by simp)
      have hrest : '\n' ∉ b :: rest' := fun hm => h (List.mem_cons_of_mem _ hm)
      simp only [findCRLF, if_neg hb, ih hrest, Option.map_none']

lemma findLF_none (l : List Char) (h : '\n' ∉ l) : findLF l = none := by
  induction l with
  | nil => rfl
  | cons a rest ih =>
    have ha : ¬(a = '\n') := fun hh => h (hh ▸ List.mem_cons_self a rest)
    have hrest : '\n' ∉ rest := fun hm => h (List.mem_cons_of_mem _ hm)
    simp only [findLF, if_neg ha, ih hrest, Option.map_none']

lemma findCmdEnd_none (l : List Char) (h : '\n' ∉ l) : findCmdEnd l = none := by
  simp [findCmdEnd, findCRLF_none l h, findLF_none l h]

lemma findLF_append (p rest0 : List Char) (h : '\n' ∉ p) :
    findLF (p ++ '\n' :: rest0) = some p.length := by
  induction p with
  | nil => simp [findLF]
  | cons a p' ih =>
    have ha : ¬(a = '\n') := fun hh => h (hh ▸ List.mem_cons_self a p')
    have hp' : '\n' ∉ p' := fun hm => h (List.mem_cons_of_mem _ hm)
    simp only [List.cons_append, findLF, if_neg ha, List.append_eq, ih hp',
      Option.map_some', List.length_cons]

lemma findCRLF_append_crlf (p rest0 : List Char) (h : ∀ c ∈ p, c ≠ '\r') :
    findCRLF (p ++ '\r' :: '\n' :: rest0) = some p.length := by
  induction p with
  | nil => simp [findCRLF]
  | cons a p' ih =>
    have ha : a ≠ '\r' := h a (List.mem_cons_self _ _)
    have hp' : ∀ c ∈ p', c ≠ '\r' := fun c hc => h c (List.mem_cons_of_mem _ hc)
    cases p' with
    | nil => simp [findCRLF, ha]
    | cons b p'' =>
      have hab : ¬(a = '\r' ∧ b = '\n') := fun hh => ha hh.1
      simp only [List.cons_append, findCRLF, if_neg hab]
      have := ih hp'
      simp only [List.cons_append] at this
      simp [this]

lemma findCRLF_append_lf (p : List Char) (h : ∀ c ∈ p, c ≠ '\r') :
    findCRLF (p ++ ['\n']) = none := by
  induction p with
  | nil => rfl
  | cons a p' ih =>
    have ha : a ≠ '\r' := h a (List.mem_cons_self _ _)
    have hp' : ∀ c ∈ p', c ≠ '\r' := fun c hc => h c (List.mem_cons_of_mem _ hc)
    cases p' with
    | nil => simp [findCRLF, ha]
    | cons b p'' =>
      have hab : ¬(a = '\r' ∧ b = '\n') := fun hh => ha hh.1
      simp only [List.cons_append, findCRLF, if_neg hab]
      have := ih hp'
      simp only [List.cons_append] at this
      simp [this]

/-- A clean single frame: a nonempty payload with no CR/LF bytes that fits
    the caller's 256-byte output buffer, followed by an LF or CR LF
    terminator, all within the accumulation buffer's capacity. -/
def IsSingleFrame (p term : List Char) : Prop :=
  p ≠ [] ∧ p.length < 256 ∧ (∀ c ∈ p, c ≠ '\n' ∧ c ≠ '\r') ∧
    (term = ['\n'] ∨ term = ['\r', '\n']) ∧ p.length + term.length ≤ bufCap

instance (p term : List Char) : Decidable (IsSingleFrame p term) := by
  unfold IsSingleFrame; infer_instance

lemma findCmdEnd_frame (p term : List Char)
    (hchar : ∀ c ∈ p, c ≠ '\n' ∧ c ≠ '\r')
    (hterm : term = ['\n'] ∨ term = ['\r', '\n']) :
    findCmdEnd (p ++ term) = some p.length := by
  have hr : ∀ c ∈ p, c ≠ '\r' := fun c hc => (hchar c hc).2
  have hn : '\n' ∉ p := fun hm => (hchar _ hm).1 rfl
  cases hterm with
  | inl h =>
    subst h
    have h1 := findCRLF_append_lf p hr
    have h2 := findLF_append p [] hn
    simp only [findCmdEnd, h1]
    simpa using h2
  | inr h =>
    subst h
    have h1 := findCRLF_append_crlf p [] hr
    simp only [findCmdEnd]
    rw [show p ++ ['\r', '\n'] = p ++ '\r' :: '\n' :: [] from rfl, h1]

lemma skipCount_frame (p rest : List Char) (hp : p ≠ [])
    (hchar : ∀ c ∈ p, c ≠ '\n' ∧ c ≠ '\r') :
    skipCount (p ++ rest) p.length = 0 := by
  unfold skipCount
  rw [List.take_left]
  cases p with
  | nil => exact absurd rfl hp
  | cons a p' =>
    have ha := hchar a (List.mem_cons_self _ _)
    rw [List.takeWhile_cons_of_neg]
    · rfl
    · simp [ha.1, ha.2]

lemma termLen_frame (p term : List Char)
    (hterm : term = ['\n'] ∨ term = ['\r', '\n']) :
    termLen (p ++ term) p.length = term.length := by
  cases hterm with
  | inl h =>
    subst h
    have h0 : (p ++ ['\n'])[p.length]? = some '\n' := by
      rw [List.getElem?_append_right (le_refl _)]
      simp
    have h1 : (p ++ ['\n'])[p.length + 1]? = none := by
      rw [List.getElem?_append_right (by omega)]
      simp
    simp [termLen, h0, h1]
  | inr h =>
    subst h
    have h0 : (p ++ ['\r', '\n'])[p.length]? = some '\r' := by
      rw [List.getElem?_append_right (le_refl _)]
      simp
    have h1 : (p ++ ['\r', '\n'])[p.length + 1]? = some '\n' := by
      rw [List.getElem?_append_right (by omega)]
      simp
    simp [termLen, h0, h1]

lemma removeProcessed_frame (p term : List Char)
    (hterm : term = ['\n'] ∨ term = ['\r', '\n']) :
    removeProcessed (p ++ term) p.length = [] := by
  unfold removeProcessed
  rw [termLen_frame p term hterm]
  apply List.drop_eq_nil_of_le
  simp

lemma runCalls_nil_chunks (sz : Nat) : ∀ (fuel : Nat) (buf : List Char)
    (chunks : List (List Char)), (∀ c ∈ chunks, c = []) →
    (runCalls sz fuel buf chunks).1 = [] := by
  intro fuel
  induction fuel with
  | zero => intro buf chunks _; rfl
  | succ n ih =>
    intro buf chunks hc
    cases chunks with
    | nil => rfl
    | cons chunk rest =>
      have h0 : chunk = [] := hc chunk (List.mem_cons_self _ _)
      have hrest : ∀ c ∈ rest, c = [] := fun c hcm => hc c (List.mem_cons_of_mem _ hcm)
      subst h0
      simp only [runCalls, readCall, List.isEmpty_nil, if_pos]
      exact ih buf rest hrest

lemma readCall_full_frame (p term : List Char) (hp : p ≠ []) (hlen : p.length < 256)
    (hchar : ∀ c ∈ p, c ≠ '\n' ∧ c ≠ '\r') (hterm : term = ['\n'] ∨ term = ['\r', '\n'])
    (buf chunk : List Char) (rest : List (List Char))
    (hne : chunk.isEmpty = false) (hfull : appendChunk buf chunk = p ++ term) :
    readCall 256 buf (chunk :: rest) = ([], rest, some p) := by
  have hfind := findCmdEnd_frame p term hchar hterm
  have hskip := skipCount_frame p term hp hchar
  have hrem := removeProcessed_frame p term hterm
  have hpos : 0 < p.length := List.length_pos.mpr hp
  simp only [readCall, hne, Bool.false_eq_true, if_false, hfull, hfind, hskip,
    Nat.sub_zero]
  rw [if_pos ⟨hpos, hlen⟩, hrem]
  simp [List.take_left]

lemma readCall_no_lf (buf chunk : List Char) (rest : List (List Char))
    (hne : chunk.isEmpty = false) (hcap : buf.length + chunk.length ≤ bufCap)
    (hnb : '\n' ∉ buf) (hnc : '\n' ∉ chunk) :
    readCall 256 buf (chunk :: rest) = (buf ++ chunk, rest, none) := by
  have happ := appendChunk_of_le chunk buf hcap
  have hnl1 : '\n' ∉ buf ++ chunk := by
    intro hm
    rcases List.mem_append.mp hm with h | h
    · exact hnb h
    · exact hnc h
  have hfind : findCmdEnd (buf ++ chunk) = none := findCmdEnd_none _ hnl1
  simp only [readCall, hne, Bool.false_eq_true, if_false, happ, hfind]

lemma runCalls_single_frame (p term : List Char) (hf : IsSingleFrame p term) :
    ∀ (chunks : List (List Char)) (buf : List Char),
      buf ++ chunks.flatten = p ++ term → '\n' ∉ buf →
      (runCalls 256 chunks.length buf chunks).1 =
        if chunks.flatten = [] then [] else [p] := by
  obtain ⟨hp, hlen, hchar, hterm, hcap⟩ := hf
  have hlf_term : '\n' ∈ term := by
    rcases hterm with h | h <;> simp [h]
  intro chunks
  induction chunks with
  | nil => intro buf _ _; simp [runCalls]
  | cons chunk rest ih =>
    intro buf hbuf hnl
    have hflat : (chunk :: rest).flatten = chunk ++ rest.flatten := List.flatten_cons ..
    by_cases hce : chunk = []
    · subst hce
      have hrc : readCall 256 buf ([] :: rest) = (buf, rest, none) := by
        simp [readCall]
      simp only [List.length_cons, runCalls, hrc]
      rw [ih buf (by simpa using hbuf) hnl]
      simp
    · have hne : chunk.isEmpty = false := by simpa using hce
      have hlens : buf.length + (chunk.length + rest.flatten.length)
          = p.length + term.length := by
        have := congrArg List.length hbuf
        simpa only [hflat, List.length_append] using this
      have hcapb : buf.length + chunk.length ≤ bufCap := by omega
      by_cases hnc : '\n' ∈ chunk
      · -- the chunk carries the frame's final LF: the buffer now holds the
        -- whole frame and nothing can remain in later chunks
        have hjr : rest.flatten = [] := by
          by_contra hne2
          have hlen2 : (buf ++ chunk).length ≤ (p ++ term).length - 1 := by
            have h1 : 1 ≤ rest.flatten.length := by
              have := List.length_pos.mpr hne2
              omega
            simp only [List.length_append]
            omega
          have htake : (p ++ term).take (buf ++ chunk).length = buf ++ chunk := by
            have hbuf2 : (buf ++ chunk) ++ rest.flatten = p ++ term := by
              simpa [hflat] using hbuf
            rw [← hbuf2, List.take_left]
          have hmem : '\n' ∈ (p ++ term).take ((p ++ term).length - 1) := by
            have hmem1 : '\n' ∈ (p ++ term).take (buf ++ chunk).length := by
              rw [htake]
              exact List.mem_append.mpr (Or.inr hnc)
            have heq : (p ++ term).take (buf ++ chunk).length =
                ((p ++ term).take ((p ++ term).length - 1)).take (buf ++ chunk).length := by
              rw [List.take_take]
              congr 1
              omega
            exact List.take_subset _ _ (heq ▸ hmem1)
          rcases hterm with h | h
          · subst h
            have hlp : (p ++ ['\n']).length - 1 = p.length := by simp
            rw [hlp, List.take_left] at hmem
            exact (hchar _ hmem).1 rfl
          · subst h
            have h2 : (p ++ ['\r', '\n']).length - 1 = p.length + 1 := by simp
            rw [h2, List.take_append_eq_append_take,
              List.take_of_length_le (by omega)] at hmem
            rcases List.mem_append.mp hmem with h | h
            · exact (hchar _ h).1 rfl
            · simp at h
        have hfull : appendChunk buf chunk = p ++ term := by
          rw [appendChunk_of_le chunk buf hcapb]
          simpa [hflat, hjr] using hbuf
        have hrc := readCall_full_frame p term hp hlen hchar hterm buf chunk rest hne hfull
        simp only [List.length_cons, runCalls, hrc]
        have hrestnil : ∀ c ∈ rest, c = [] := List.flatten_eq_nil_iff.mp hjr
        rw [runCalls_nil_chunks 256 rest.length [] rest hrestnil]
        simp [hflat, hce]
      · -- no LF in the chunk yet: the reader just accumulates
        have hrc := readCall_no_lf buf chunk rest hne hcapb hnl hnc
        simp only [List.length_cons, runCalls, hrc]
        have hnl2 : '\n' ∉ buf ++ chunk := by
          intro hm
          rcases List.mem_append.mp hm with h | h
          · exact hnl h
          · exact hnc h
        have hjr : rest.flatten ≠ [] := by
          intro hjr0
          have : buf ++ chunk = p ++ term := by simpa [hflat, hjr0] using hbuf
          exact hnl2 (this ▸ List.mem_append.mpr (Or.inr hlf_term))
        rw [ih (buf ++ chunk) (by simpa [hflat] using hbuf) hnl2]
        rw [if_neg hjr, if_neg (by simp [hflat, hce, hjr])]

/-! ## Claim C1: framing idempotence under chunking -/

/-- C1 (counterexample): framing is NOT chunking-invariant.  The scan looks
    for `\r\n` anywhere in the buffer before falling back to a bare `\n`, and
    each call extracts at most one command, so feeding `"A\nB\r\n"` in one
    call yields the single command `"A\nB"` while feeding `"A\n"` then
    `"B\r\n"` yields `"A"` and then `"B"`. -/
theorem C1_counterexample_chunking_dependent :
    commandsOfChunks [['A', '\n'], ['B', '\r', '\n']] ≠
      commandsOfChunks [[['A', '\n'], ['B', '\r', '\n']].flatten] ∧
    commandsOfChunks [['A', '\n'], ['B', '\r', '\n']] = [['A'], ['B']] ∧
    commandsOfChunks [[['A', '\n'], ['B', '\r', '\n']].flatten] = [['A', '\n', 'B']] := by
  decide

/-- C1 (amended): chunking invariance does hold for a clean single frame —
    a byte sequence forming one complete command (nonempty payload free of
    CR/LF, shorter than the 256-byte caller buffer) followed by its LF or
    CR LF terminator, within buffer capacity.  Every split into chunks fed
    one call per chunk extracts exactly that one command, the same as
    feeding the whole sequence in a single call. -/
theorem C1_single_frame_chunking_invariant (p term : List Char)
    (chunks : List (List Char)) (hf : IsSingleFrame p term)
    (hjoin : chunks.flatten = p ++ term) :
    commandsOfChunks chunks = [p] ∧ commandsOfChunks [p ++ term] = [p] := by
  have hne : p ++ term ≠ [] := by
    intro h
    rcases hf.1 (by simpa using List.append_eq_nil.mp h |>.1)
  constructor
  · have := runCalls_single_frame p term hf chunks [] (by simpa using hjoin)
      (by simp)
    simpa [commandsOfChunks, hjoin, hne] using this
  · have := runCalls_single_frame p term hf [p ++ term] []
      (by simp) (by simp)
    simpa [commandsOfChunks, hne] using this

/-- Witness for `C1_single_frame_chunking_invariant` at the frame
    `"POLL\r\n"` split as `"PO"`, `"LL\r\n"`. -/
theorem C1_single_frame_chunking_invariant_witness :
    IsSingleFrame ['P', 'O', 'L', 'L'] ['\r', '\n'] ∧
    ([['P', 'O'], ['L', 'L', '\r', '\n']] : List (List Char)).flatten =
      ['P', 'O', 'L', 'L'] ++ ['\r', '\n'] ∧
    commandsOfChunks [['P', 'O'], ['L', 'L', '\r', '\n']] = [['P', 'O', 'L', 'L']] :=
  ⟨by decide, by decide,
    (C1_single_frame_chunking_invariant ['P', 'O', 'L', 'L'] ['\r', '\n']
      [['P', 'O'], ['L', 'L', '\r', '\n']] (by decide) (by decide)).1⟩

/-! ### Buffer invariants of the frame reader (claim C7): the accumulation
    buffer never exceeds its capacity, always holds a suffix of the bytes
    fed so far (the sliding window), and extracted commands are contiguous
    runs of bytes that were actually sent. -/

lemma appendByte_len_le (buf : List Char) (c : Char) (h : buf.length ≤ bufCap) :
    (appendByte buf c).length ≤ bufCap := by
  have hb : bufCap = 511 := rfl
  unfold appendByte
  by_cases hlt : buf.length < bufCap
  · rw [if_pos hlt]
    simp only [List.length_append, List.length_cons, List.length_nil]
    omega
  · rw [if_neg hlt]
    have ht : buf.tail.length = buf.length - 1 := List.length_tail buf
    simp only [List.length_append, List.length_cons, List.length_nil, ht]
    omega

lemma appendByte_suffix (buf fed : List Char) (c : Char) (h : buf <:+ fed) :
    appendByte buf c <:+ fed ++ [c] := by
  unfold appendByte
  split
  · obtain ⟨s, hs⟩ := h
    exact ⟨s, by rw [← List.append_assoc, hs]⟩
  · obtain ⟨s, hs⟩ := (List.tail_suffix buf).trans h
    exact ⟨s, by rw [← List.append_assoc, hs]⟩

lemma appendChunk_len_le (chunk : List Char) : ∀ buf : List Char,
    buf.length ≤ bufCap → (appendChunk buf chunk).length ≤ bufCap := by
  induction chunk with
  | nil => intro buf h; simpa [appendChunk] using h
  | cons c cs ih =>
    intro buf h
    simpa [appendChunk, List.foldl_cons] using
      ih (appendByte buf c) (appendByte_len_le buf c h)

lemma appendChunk_suffix (chunk : List Char) : ∀ buf fed : List Char,
    buf <:+ fed → appendChunk buf chunk <:+ fed ++ chunk := by
  induction chunk with
  | nil => intro buf fed h; simpa [appendChunk] using h
  | cons c cs ih =>
    intro buf fed h
    have h1 := appendByte_suffix buf fed c h
    have h2 := ih (appendByte buf c) (fed ++ [c]) h1
    simpa [appendChunk, List.foldl_cons] using h2

lemma removeProcessed_suffix (buf : List Char) (ce : Nat) :
    removeProcessed buf ce <:+ buf :=
  List.drop_suffix _ _

lemma removeProcessed_len_le (buf : List Char) (ce : Nat) (h : buf.length ≤ bufCap) :
    (removeProcessed buf ce).length ≤ bufCap :=
  le_trans (removeProcessed_suffix buf ce).sublist.length_le h

lemma findCRLF_mem (l : List Char) : ∀ i, findCRLF l = some i → '\n' ∈ l := by
  induction l with
  | nil => intro i h; simp [findCRLF] at h
  | cons a rest ih =>
    intro i h
    cases rest with
    | nil => simp [findCRLF] at h
    | cons b rest' =>
      by_cases hc : a = '\r' ∧ b = '\n'
      · exact List.mem_cons_of_mem _ (hc.2 ▸ List.mem_cons_self _ _)
      · rw [findCRLF, if_neg hc] at h
        obtain ⟨j, hj, -⟩ := Option.map_eq_some'.mp h
        exact List.mem_cons_of_mem _ (ih j hj)

lemma findLF_mem (l : List Char) : ∀ i, findLF l = some i → '\n' ∈ l := by
  induction l with
  | nil => intro i h; simp [findLF] at h
  | cons a rest ih =>
    intro i h
    by_cases hc : a = '\n'
    · exact hc ▸ List.mem_cons_self _ _
    · rw [findLF, if_neg hc] at h
      obtain ⟨j, hj, -⟩ := Option.map_eq_some'.mp h
      exact List.mem_cons_of_mem _ (ih j hj)

lemma findCmdEnd_mem (l : List Char) (i : Nat) (h : findCmdEnd l = some i) :
    '\n' ∈ l := by
  cases hc : findCRLF l with
  | some j => exact findCRLF_mem l j hc
  | none =>
    simp only [findCmdEnd, hc] at h
    exact findLF_mem l i h

lemma findCRLF_lt (l : List Char) : ∀ i, findCRLF l = some i → i + 1 < l.length := by
  induction l with
  | nil => intro i h; simp [findCRLF] at h
  | cons a rest ih =>
    intro i h
    cases rest with
    | nil => simp [findCRLF] at h
    | cons b rest' =>
      by_cases hc : a = '\r' ∧ b = '\n'
      · rw [findCRLF, if_pos hc] at h
        cases h
        simp
      · rw [findCRLF, if_neg hc] at h
        obtain ⟨j, hj, hji⟩ := Option.map_eq_some'.mp h
        have hjl := ih j hj
        simp only [List.length_cons] at hjl ⊢
        omega

lemma findLF_lt (l : List Char) : ∀ i, findLF l = some i → i < l.length := by
  induction l with
  | nil => intro i h; simp [findLF] at h
  | cons a rest ih =>
    intro i h
    by_cases hc : a = '\n'
    · rw [findLF, if_pos hc] at h
      cases h
      simp
    · rw [findLF, if_neg hc] at h
      obtain ⟨j, hj, hji⟩ := Option.map_eq_some'.mp h
      have hjl := ih j hj
      simp only [List.length_cons] at hjl ⊢
      omega

lemma findCmdEnd_lt (l : List Char) (i : Nat) (h : findCmdEnd l = some i) :
    i < l.length := by
  cases hc : findCRLF l with
  | some j =>
    simp only [findCmdEnd, hc, Option.some.injEq] at h
    have := findCRLF_lt l j hc
    omega
  | none =>
    simp only [findCmdEnd, hc] at h
    exact findLF_lt l i h

lemma skipCount_le (buf : List Char) (ce : Nat) : skipCount buf ce ≤ ce := by
  unfold skipCount
  calc ((buf.take ce).takeWhile _).length ≤ (buf.take ce).length :=
        (List.takeWhile_sublist _).length_le
    _ ≤ ce := by simp [List.length_take]

lemma extract_decomp (buf : List Char) (ce cs : Nat) :
    (buf.take ce).take cs ++ ((buf.take ce).drop cs) ++ buf.drop ce = buf := by
  rw [List.take_append_drop, List.take_append_drop]

lemma extract_length (buf : List Char) (ce cs : Nat) (hce : ce ≤ buf.length) :
    ((buf.take ce).drop cs).length = ce - cs := by
  simp [List.length_drop, List.length_take]
  omega

lemma readCall_invariant (sz : Nat) : ∀ (chunks : List (List Char)) (buf fed : List Char),
    buf <:+ fed → buf.length ≤ bufCap →
    ∃ consumed rest1 buf1 res,
      readCall sz buf chunks = (buf1, rest1, res) ∧
      chunks = consumed ++ rest1 ∧
      (chunks = [] ∨ rest1.length < chunks.length) ∧
      buf1 <:+ fed ++ consumed.flatten ∧ buf1.length ≤ bufCap ∧
      ∀ cmd, res = some cmd →
        (∃ s t, s ++ cmd ++ t = fed ++ consumed.flatten) ∧
        0 < cmd.length ∧ cmd.length < sz ∧ '\n' ∈ fed ++ consumed.flatten := by
  intro chunks
  induction chunks with
  | nil =>
    intro buf fed hsuf hlen
    refine ⟨[], [], buf, none, rfl, rfl, Or.inl rfl, ?_, hlen, ?_⟩
    · simpa using hsuf
    · intro cmd h; simp at h
  | cons chunk rest ih =>
    intro buf fed hsuf hlen
    by_cases hemp : chunk.isEmpty
    · have hrc : readCall sz buf (chunk :: rest) = (buf, rest, none) := by
        simp [readCall, hemp]
      refine ⟨[chunk], rest, buf, none, hrc, by simp, Or.inr (by simp), ?_, hlen, ?_⟩
      · have hcn : chunk = [] := List.isEmpty_iff.mp hemp
        subst hcn
        simpa using hsuf
      · intro cmd h; simp at h
    · have hne : chunk.isEmpty = false := by simpa using hemp
      have hsuf1 : appendChunk buf chunk <:+ fed ++ chunk :=
        appendChunk_suffix chunk buf fed hsuf
      have hlen1 : (appendChunk buf chunk).length ≤ bufCap :=
        appendChunk_len_le chunk buf hlen
      cases hfind : findCmdEnd (appendChunk buf chunk) with
      | none =>
        have hrc : readCall sz buf (chunk :: rest) = (appendChunk buf chunk, rest, none) := by
          simp only [readCall, hne, Bool.false_eq_true, if_false, hfind]
        refine ⟨[chunk], rest, _, none, hrc, by simp, Or.inr (by simp), ?_, hlen1, ?_⟩
        · simpa using hsuf1
        · intro cmd h; simp at h
      | some ce =>
        have hce := findCmdEnd_lt (appendChunk buf chunk) ce hfind
        have hlf : '\n' ∈ fed ++ chunk :=
          hsuf1.subset (findCmdEnd_mem (appendChunk buf chunk) ce hfind)
        by_cases hvalid : 0 < ce - skipCount (appendChunk buf chunk) ce ∧
            ce - skipCount (appendChunk buf chunk) ce < sz
        · have hrc : readCall sz buf (chunk :: rest) =
              (removeProcessed (appendChunk buf chunk) ce, rest,
                some (((appendChunk buf chunk).take ce).drop
                  (skipCount (appendChunk buf chunk) ce))) := by
            simp only [readCall, hne, Bool.false_eq_true, if_false, hfind]
            rw [if_pos hvalid]
          refine ⟨[chunk], rest, _, _, hrc, by simp, Or.inr (by simp), ?_,
            removeProcessed_len_le _ ce hlen1, ?_⟩
          · exact (removeProcessed_suffix _ ce).trans (by simpa using hsuf1)
          · intro cmd h
            have hcmd : cmd = ((appendChunk buf chunk).take ce).drop
                (skipCount (appendChunk buf chunk) ce) := by
              simpa using h.symm
            subst hcmd
            have hcl : (((appendChunk buf chunk).take ce).drop
                (skipCount (appendChunk buf chunk) ce)).length
                = ce - skipCount (appendChunk buf chunk) ce :=
              extract_length _ ce _ (le_of_lt hce)
            obtain ⟨s0, hs0⟩ := hsuf1
            refine ⟨⟨s0 ++ ((appendChunk buf chunk).take ce).take
                (skipCount (appendChunk buf chunk) ce),
              (appendChunk buf chunk).drop ce, ?_⟩, ?_, ?_, by simpa using hlf⟩
            · have hdec2 : ((appendChunk buf chunk).take ce).take
                  (skipCount (appendChunk buf chunk) ce) ++
                  (((appendChunk buf chunk).take ce).drop
                    (skipCount (appendChunk buf chunk) ce) ++
                    (appendChunk buf chunk).drop ce) = appendChunk buf chunk := by
                rw [← List.append_assoc, List.take_append_drop, List.take_append_drop]
              simp only [List.append_assoc]
              rw [hdec2, hs0]
              simp
            · rw [hcl]; exact hvalid.1
            · rw [hcl]; exact hvalid.2
        · obtain ⟨consumed', rest1', buf1', res', hrc', hsplit', hlt',
            hsuf', hlen', hcmd'⟩ :=
            ih (removeProcessed (appendChunk buf chunk) ce) (fed ++ chunk)
              ((removeProcessed_suffix _ ce).trans hsuf1)
              (removeProcessed_len_le _ ce hlen1)
          have hrc : readCall sz buf (chunk :: rest) = (buf1', rest1', res') := by
            simp only [readCall, hne, Bool.false_eq_true, if_false, hfind]
            rw [if_neg hvalid]
            exact hrc'
          have heq : fed ++ (chunk :: consumed').flatten
              = (fed ++ chunk) ++ consumed'.flatten := by
            simp [List.flatten_cons, List.append_assoc]
          refine ⟨chunk :: consumed', rest1', buf1', res', hrc, by simp [hsplit'],
            ?_, ?_, hlen', ?_⟩
          · right
            have hr1 : rest1'.length ≤ rest.length := by
              have := congrArg List.length hsplit'
              simp only [List.length_append] at this
              omega
            simp only [List.length_cons]
            omega
          · rw [heq]; exact hsuf'
          · intro cmd h
            obtain ⟨hinf, h1, h2, h3⟩ := hcmd' cmd h
            exact ⟨by rw [heq]; exact hinf, h1, h2, by rw [heq]; exact h3⟩

lemma runCalls_invariant (sz : Nat) : ∀ (fuel : Nat) (chunks : List (List Char))
    (buf fed : List Char), chunks.length ≤ fuel → buf <:+ fed → buf.length ≤ bufCap →
    (runCalls sz fuel buf chunks).2 <:+ fed ++ chunks.flatten ∧
    (runCalls sz fuel buf chunks).2.length ≤ bufCap ∧
    ∀ cmd ∈ (runCalls sz fuel buf chunks).1,
      (∃ s t, s ++ cmd ++ t = fed ++ chunks.flatten) ∧
      0 < cmd.length ∧ cmd.length < sz ∧ '\n' ∈ fed ++ chunks.flatten := by
  intro fuel
  induction fuel with
  | zero =>
    intro chunks buf fed hfl hsuf hlen
    have hczero : chunks = [] := List.length_eq_zero.mp (Nat.le_zero.mp hfl)
    subst hczero
    refine ⟨by simpa using hsuf, hlen, ?_⟩
    intro cmd h
    simp [runCalls] at h
  | succ n ih =>
    intro chunks buf fed hfl hsuf hlen
    cases chunks with
    | nil =>
      refine ⟨by simpa using hsuf, hlen, ?_⟩
      intro cmd h
      simp [runCalls] at h
    | cons chunk rest =>
      obtain ⟨consumed, rest1, buf1, res, hrc, hsplit, hlt, hsuf1, hlen1, hcmd⟩ :=
        readCall_invariant sz (chunk :: rest) buf fed hsuf hlen
      have hr1 : rest1.length ≤ n := by
        rcases hlt with h | h
        · simp at h
        · simp only [List.length_cons] at h hfl
          omega
      have heq : (fed ++ consumed.flatten) ++ rest1.flatten
          = fed ++ (chunk :: rest).flatten := by
        rw [List.append_assoc, ← List.flatten_append, ← hsplit]
      obtain ⟨ihsuf, ihlen, ihcmd⟩ :=
        ih rest1 buf1 (fed ++ consumed.flatten) hr1 hsuf1 hlen1
      cases res with
      | none =>
        have hrun : runCalls sz (n + 1) buf (chunk :: rest)
            = runCalls sz n buf1 rest1 := by
          simp only [runCalls, hrc]
        rw [hrun]
        refine ⟨by rw [← heq]; exact ihsuf, ihlen, ?_⟩
        intro cmd h
        obtain ⟨⟨s, t, hst⟩, h1, h2, h3⟩ := ihcmd cmd h
        exact ⟨⟨s, t, by rw [hst, heq]⟩, h1, h2, by rw [← heq]; exact h3⟩
      | some c0 =>
        have hrun : runCalls sz (n + 1) buf (chunk :: rest)
            = (c0 :: (runCalls sz n buf1 rest1).1, (runCalls sz n buf1 rest1).2) := by
          simp only [runCalls, hrc]
        rw [hrun]
        refine ⟨by rw [← heq]; exact ihsuf, ihlen, ?_⟩
        intro cmd h
        rcases List.mem_cons.mp h with h | h
        · subst h
          obtain ⟨⟨s, t, hst⟩, h1, h2, h3⟩ := hcmd cmd rfl
          refine ⟨⟨s, t ++ rest1.flatten, ?_⟩, h1, h2, ?_⟩
          · rw [← heq, ← hst]
            simp [List.append_assoc]
          · rw [← heq]
            exact List.mem_append.mpr (Or.inl h3)
        · obtain ⟨⟨s, t, hst⟩, h1, h2, h3⟩ := ihcmd cmd h
          exact ⟨⟨s, t, by rw [hst, heq]⟩, h1, h2, by rw [← heq]; exact h3⟩

/-! ## Claim C7: frame-buffer overflow invariants -/

/-- C7: after any feed sequence, the write cursor (modelled as the list
    length) is at most the 511-byte data capacity; the buffer always holds a
    suffix of the bytes fed so far (the sliding window keeps the newest
    bytes); every extracted command is a contiguous run of bytes that were
    actually sent; a stream with no `\n` never yields a command (no
    fabricated terminator); and on a full buffer each incoming byte evicts
    exactly the single oldest byte. -/
theorem C7_frame_buffer_invariants :
    (∀ chunks : List (List Char),
      (bufferOfChunks chunks).length ≤ bufCap ∧
      bufferOfChunks chunks <:+ chunks.flatten ∧
      (∀ cmd ∈ commandsOfChunks chunks, ∃ s t, s ++ cmd ++ t = chunks.flatten) ∧
      ('\n' ∉ chunks.flatten → commandsOfChunks chunks = [])) ∧
    (∀ (buf : List Char) (c : Char), buf.length = bufCap →
      appendByte buf c = buf.tail ++ [c]) := by
  constructor
  · intro chunks
    obtain ⟨hsuf, hlen, hcmd⟩ := runCalls_invariant 256 chunks.length chunks [] []
      (le_refl _) (List.suffix_refl _) (by simp)
    refine ⟨hlen, by simpa [bufferOfChunks] using hsuf, ?_, ?_⟩
    · intro cmd hm
      simp only [commandsOfChunks] at hm
      obtain ⟨⟨s, t, hst⟩, -, -, -⟩ := hcmd cmd hm
      exact ⟨s, t, by simpa using hst⟩
    · intro hnl
      by_contra hne
      obtain ⟨cmd, hm⟩ := List.exists_mem_of_ne_nil _ hne
      simp only [commandsOfChunks] at hm
      obtain ⟨-, -, -, h3⟩ := hcmd cmd hm
      exact hnl (by simpa using h3)
  · intro buf c hlen
    unfold appendByte
    rw [if_neg (by omega)]

/-- Witness for `C7_frame_buffer_invariants`: concrete instances of the
    suffix clause, the no-terminator clause and the byte-eviction clause. -/
theorem C7_frame_buffer_invariants_witness :
    bufferOfChunks [['P', 'O']] <:+ [['P', 'O']].flatten ∧
    commandsOfChunks [['x'], ['y']] = [] ∧
    appendByte (List.replicate 511 'x') 'z' = (List.replicate 511 'x').tail ++ ['z'] :=
  ⟨(C7_frame_buffer_invariants.1 [['P', 'O']]).2.1,
    (C7_frame_buffer_invariants.1 [['x'], ['y']]).2.2.2 (by decide),
    C7_frame_buffer_invariants.2 (List.replicate 511 'x') 'z'
      (by simp only [List.length_replicate, bufCap])⟩

/-! ## Claim C8: empty-frame suppression -/

/-- C8: feeding `"\r\n"` and then `"POLL\r\n"` yields exactly one extracted
    command, `"POLL"` — the leading empty segment is removed together with
    its terminator and never returned; in general every extracted command is
    nonempty (and shorter than the caller's 256-byte output buffer). -/
theorem C8_empty_frame_suppression :
    commandsOfChunks [['\r', '\n'], ['P', 'O', 'L', 'L', '\r', '\n']] =
      [['P', 'O', 'L', 'L']] ∧
    ∀ (chunks : List (List Char)) (cmd : List Char),
      cmd ∈ commandsOfChunks chunks → 0 < cmd.length ∧ cmd.length < 256 := by
  refine ⟨by decide, ?_⟩
  intro chunks cmd hm
  simp only [commandsOfChunks] at hm
  obtain ⟨-, h1, h2, -⟩ := (runCalls_invariant 256 chunks.length chunks [] []
    (le_refl _) (List.suffix_refl _) (by simp)).2.2 cmd hm
  exact ⟨h1, h2⟩

/-- Witness for `C8_empty_frame_suppression` at the extracted `"POLL"`. -/
theorem C8_empty_frame_suppression_witness :
    0 < (['P', 'O', 'L', 'L'] : List Char).length ∧
      (['P', 'O', 'L', 'L'] : List Char).length < 256 :=
  C8_empty_frame_suppression.2 [['\r', '\n'], ['P', 'O', 'L', 'L', '\r', '\n']]
    ['P', 'O', 'L', 'L'] (by decide)

/-! ## Endpoint table (src/include/temperature_sensor.h, src/unnamed/part_010
    `TemperatureSensor`)

One slot of `deviceTemps` / `deviceConnected` / `missedPolls`; temperatures
are rationals (data flow and comparisons only). -/

structure SensorDevice where
  cpuTemp : ℚ
  nvmeTemp : ℚ
  isValid : Bool
  missedPolls : Nat
  connected : Bool
  deriving DecidableEq

/-- `MAX_MISSED_POLLS` (src/include/config.h line 29), also `maxMissedPolls`
    in src/unnamed/part_011. -/
def MAX_MISSED_POLLS : Nat := 10

/-- `TemperatureSensor::handleMissedPoll` (src/unnamed/part_010 lines
    99-120) restricted to one device slot: increment the missed-poll
    counter; if it reaches `MAX_MISSED_POLLS` while the device is marked
    connected, clear the connected flag (the temperatures are not
    touched). -/
def handleMissedPoll (d : SensorDevice) : SensorDevice :=
  let d1 := { d with missedPolls := d.missedPolls + 1 }
  if MAX_MISSED_POLLS ≤ d1.missedPolls ∧ d1.connected then
    { d1 with connected := false }
  else
    d1

lemma handleMissedPoll_eq (d : SensorDevice) :
    handleMissedPoll d =
      if MAX_MISSED_POLLS ≤ d.missedPolls + 1 ∧ d.connected = true then
        SensorDevice.mk d.cpuTemp d.nvmeTemp d.isValid (d.missedPolls + 1) false
      else
        SensorDevice.mk d.cpuTemp d.nvmeTemp d.isValid (d.missedPolls + 1) d.connected :=
  rfl

lemma handleMissedPoll_iterate (d : SensorDevice) (hc : d.connected = true)
    (hm : d.missedPolls = 0) : ∀ k : Nat,
    (handleMissedPoll^[k] d).missedPolls = k ∧
    (handleMissedPoll^[k] d).connected = decide (k < MAX_MISSED_POLLS) ∧
    (handleMissedPoll^[k] d).cpuTemp = d.cpuTemp ∧
    (handleMissedPoll^[k] d).nvmeTemp = d.nvmeTemp := by
  intro k
  induction k with
  | zero => simp [hm, hc, MAX_MISSED_POLLS]
  | succ n ih =>
    obtain ⟨ih1, ih2, ih3, ih4⟩ := ih
    rw [Function.iterate_succ_apply', handleMissedPoll_eq]
    by_cases h : MAX_MISSED_POLLS ≤ (handleMissedPoll^[n] d).missedPolls + 1 ∧
        (handleMissedPoll^[n] d).connected = true
    · rw [if_pos h]
      have hn : ¬(n + 1 < MAX_MISSED_POLLS) := by
        rw [ih1] at h
        omega
      simp [ih1, ih3, ih4, hn]
    · rw [if_neg h]
      refine ⟨by simp [ih1], ?_, by simp [ih3], by simp [ih4]⟩
      simp only [ih1] at h
      rw [ih2] at h ⊢
      by_cases hlt : n < MAX_MISSED_POLLS
      · have hnle : ¬(MAX_MISSED_POLLS ≤ n + 1) := by
          rcases not_and_or.mp h with h1 | h1
          · omega
          · exact absurd (by simp [hlt]) h1
        have hlt2 : n + 1 < MAX_MISSED_POLLS := by omega
        simp [hlt2, hlt]
      · have hge : MAX_MISSED_POLLS ≤ n := Nat.le_of_not_lt hlt
        have hn1 : ¬(n + 1 < MAX_MISSED_POLLS) := by omega
        simp [hlt, hn1]

/-! ## Claim C2: disconnect detection after exactly 10 missed polls -/

/-- C2: for a connected endpoint with a reset missed-poll counter, repeated
    missed polls leave it connected through the 9th miss, the 10th miss
    (`MAX_MISSED_POLLS = 10`) flips connected to false, the flag stays false
    for every later miss (the transition happens exactly once), and the
    stored CPU/NVME readings are never changed (in particular never
    zeroed). -/
theorem C2_disconnect_after_ten_missed_polls (d : SensorDevice)
    (hc : d.connected = true) (hm : d.missedPolls = 0) :
    (∀ k, k < 10 → (handleMissedPoll^[k] d).connected = true) ∧
    (handleMissedPoll^[10] d).connected = false ∧
    (∀ k, 10 ≤ k → (handleMissedPoll^[k] d).connected = false) ∧
    (∀ k, (handleMissedPoll^[k] d).cpuTemp = d.cpuTemp ∧
      (handleMissedPoll^[k] d).nvmeTemp = d.nvmeTemp) := by
  refine ⟨?_, ?_, ?_, ?_⟩
  · intro k hk
    rw [(handleMissedPoll_iterate d hc hm k).2.1]
    simpa [MAX_MISSED_POLLS] using hk
  · rw [(handleMissedPoll_iterate d hc hm 10).2.1]
    simp [MAX_MISSED_POLLS]
  · intro k hk
    rw [(handleMissedPoll_iterate d hc hm k).2.1]
    simp only [MAX_MISSED_POLLS, decide_eq_false_iff_not]
    omega
  · intro k
    exact ⟨(handleMissedPoll_iterate d hc hm k).2.2.1,
      (handleMissedPoll_iterate d hc hm k).2.2.2⟩

/-- Witness for `C2_disconnect_after_ten_missed_polls` at a concrete
    endpoint state. -/
theorem C2_disconnect_after_ten_missed_polls_witness :
    (handleMissedPoll^[9]
      (SensorDevice.mk 42 39 true 0 true)).connected = true ∧
    (handleMissedPoll^[10]
      (SensorDevice.mk 42 39 true 0 true)).connected = false ∧
    (handleMissedPoll^[10]
      (SensorDevice.mk 42 39 true 0 true)).cpuTemp = 42 :=
  ⟨(C2_disconnect_after_ten_missed_polls _ rfl rfl).1 9 (by decide),
    (C2_disconnect_after_ten_missed_polls _ rfl rfl).2.1,
    ((C2_disconnect_after_ten_missed_polls _ rfl rfl).2.2.2 10).1⟩

/-! ## Actuator curve (src/src/main.cpp `FanController::calculateFanSpeed`
    lines 133-144, src/unnamed/part_011 `updateFanSpeed` lines 167-194)

The C `float` arithmetic is idealized over ℝ; the implicit float→int
conversion of `FAN_SPEED_MIN + curvedRatio * (FAN_SPEED_MAX -
FAN_SPEED_MIN)` truncates a nonnegative value, i.e. takes the floor. -/

def FAN_SPEED_MIN : ℤ := 30
def FAN_SPEED_MAX : ℤ := 255
noncomputable def FAN_CURVE_EXPONENT : ℝ := 2.5
noncomputable def CPU_TEMP_MIN : ℝ := 40
noncomputable def CPU_TEMP_MAX : ℝ := 60
noncomputable def NVME_TEMP_MIN : ℝ := 40
noncomputable def NVME_TEMP_MAX : ℝ := 65

/-- `FanController::calculateFanSpeed`: clamp below `minTemp` to the floor,
    above `maxTemp` to the ceiling, and apply the parabolic curve
    `pow(ratio, 2.5)` in between. -/
noncomputable def calculateFanSpeed (temp minTemp maxTemp : ℝ) : ℤ :=
  if temp ≤ minTemp then FAN_SPEED_MIN
  else if maxTemp ≤ temp then FAN_SPEED_MAX
  else
    ⌊(FAN_SPEED_MIN : ℝ) + ((temp - minTemp) / (maxTemp - minTemp)) ^ FAN_CURVE_EXPONENT *
      ((FAN_SPEED_MAX : ℝ) - (FAN_SPEED_MIN : ℝ))⌋

/-- The curve output of `updateFanSpeed` when data is present: the larger of
    the CPU-curve and NVME-curve outputs on the worst observed readings. -/
noncomputable def updateFanSpeedValue (cpu nvme : ℝ) : ℤ :=
  max (calculateFanSpeed cpu CPU_TEMP_MIN CPU_TEMP_MAX)
    (calculateFanSpeed nvme NVME_TEMP_MIN NVME_TEMP_MAX)

lemma calculateFanSpeed_bounds (temp minT maxT : ℝ) :
    FAN_SPEED_MIN ≤ calculateFanSpeed temp minT maxT ∧
    calculateFanSpeed temp minT maxT ≤ FAN_SPEED_MAX := by
  unfold calculateFanSpeed
  by_cases h1 : temp ≤ minT
  · rw [if_pos h1]
    exact ⟨le_refl _, by norm_num [FAN_SPEED_MIN, FAN_SPEED_MAX]⟩
  · rw [if_neg h1]
    by_cases h2 : maxT ≤ temp
    · rw [if_pos h2]
      exact ⟨by norm_num [FAN_SPEED_MIN, FAN_SPEED_MAX], le_refl _⟩
    · rw [if_neg h2]
      push_neg at h1 h2
      have hd : 0 < maxT - minT := by linarith
      have hr0 : 0 ≤ (temp - minT) / (maxT - minT) := div_nonneg (by linarith) hd.le
      have hr1 : (temp - minT) / (maxT - minT) ≤ 1 := by
        rw [div_le_one hd]; linarith
      have he : (0:ℝ) ≤ FAN_CURVE_EXPONENT := by norm_num [FAN_CURVE_EXPONENT]
      have hx0 : 0 ≤ ((temp - minT) / (maxT - minT)) ^ FAN_CURVE_EXPONENT :=
        Real.rpow_nonneg hr0 _
      have hx1 : ((temp - minT) / (maxT - minT)) ^ FAN_CURVE_EXPONENT ≤ 1 :=
        Real.rpow_le_one hr0 hr1 he
      constructor
      · apply Int.le_floor.mpr
        norm_num [FAN_SPEED_MIN, FAN_SPEED_MAX]
        nlinarith
      · calc ⌊(FAN_SPEED_MIN : ℝ) + ((temp - minT) / (maxT - minT)) ^ FAN_CURVE_EXPONENT *
              ((FAN_SPEED_MAX : ℝ) - (FAN_SPEED_MIN : ℝ))⌋
            ≤ ⌊(FAN_SPEED_MAX : ℝ)⌋ := by
              apply Int.floor_mono
              norm_num [FAN_SPEED_MIN, FAN_SPEED_MAX]
              nlinarith
          _ = FAN_SPEED_MAX := by norm_num [FAN_SPEED_MAX]

lemma calculateFanSpeed_mono (minT maxT a b : ℝ) (hab : a ≤ b) :
    calculateFanSpeed a minT maxT ≤ calculateFanSpeed b minT maxT := by
  by_cases ha1 : a ≤ minT
  · have hA : calculateFanSpeed a minT maxT = FAN_SPEED_MIN := by
      unfold calculateFanSpeed; rw [if_pos ha1]
    rw [hA]
    exact (calculateFanSpeed_bounds b minT maxT).1
  · by_cases hb1 : b ≤ minT
    · exact absurd (le_trans hab hb1) ha1
    · by_cases ha2 : maxT ≤ a
      · have hA : calculateFanSpeed a minT maxT = FAN_SPEED_MAX := by
          unfold calculateFanSpeed; rw [if_neg ha1, if_pos ha2]
        have hB : calculateFanSpeed b minT maxT = FAN_SPEED_MAX := by
          unfold calculateFanSpeed; rw [if_neg hb1, if_pos (le_trans ha2 hab)]
        rw [hA, hB]
      · by_cases hb2 : maxT ≤ b
        · have hB : calculateFanSpeed b minT maxT = FAN_SPEED_MAX := by
            unfold calculateFanSpeed; rw [if_neg hb1, if_pos hb2]
          rw [hB]
          exact (calculateFanSpeed_bounds a minT maxT).2
        · have hA : calculateFanSpeed a minT maxT =
              ⌊(FAN_SPEED_MIN : ℝ) + ((a - minT) / (maxT - minT)) ^ FAN_CURVE_EXPONENT *
                ((FAN_SPEED_MAX : ℝ) - (FAN_SPEED_MIN : ℝ))⌋ := by
            unfold calculateFanSpeed; rw [if_neg ha1, if_neg ha2]
          have hB : calculateFanSpeed b minT maxT =
              ⌊(FAN_SPEED_MIN : ℝ) + ((b - minT) / (maxT - minT)) ^ FAN_CURVE_EXPONENT *
                ((FAN_SPEED_MAX : ℝ) - (FAN_SPEED_MIN : ℝ))⌋ := by
            unfold calculateFanSpeed; rw [if_neg hb1, if_neg hb2]
          push_neg at ha1 ha2
          have hd : 0 < maxT - minT := by linarith
          have hra : 0 ≤ (a - minT) / (maxT - minT) := div_nonneg (by linarith) hd.le
          have hrr : (a - minT) / (maxT - minT) ≤ (b - minT) / (maxT - minT) := by
            gcongr
          have he : (0:ℝ) ≤ FAN_CURVE_EXPONENT := by norm_num [FAN_CURVE_EXPONENT]
          have hpow := Real.rpow_le_rpow hra hrr he
          rw [hA, hB]
          apply Int.floor_mono
          have h225 : (0:ℝ) ≤ (FAN_SPEED_MAX : ℝ) - (FAN_SPEED_MIN : ℝ) := by
            norm_num [FAN_SPEED_MIN, FAN_SPEED_MAX]
          nlinarith

/-! ## Claim C3: curve monotonicity and boundedness -/

/-- C3: the actuator output is monotone in each metric with the other held
    fixed, and always lies within `[FAN_SPEED_MIN, FAN_SPEED_MAX] =
    [30, 255]`; likewise each per-metric curve `calculateFanSpeed` is
    monotone and bounded. -/
theorem C3_fan_curve_monotone_bounded :
    (∀ a b nvme : ℝ, a < b →
      updateFanSpeedValue a nvme ≤ updateFanSpeedValue b nvme) ∧
    (∀ cpu a b : ℝ, a < b →
      updateFanSpeedValue cpu a ≤ updateFanSpeedValue cpu b) ∧
    (∀ cpu nvme : ℝ, 30 ≤ updateFanSpeedValue cpu nvme ∧
      updateFanSpeedValue cpu nvme ≤ 255) ∧
    (∀ minT maxT a b : ℝ, a < b →
      calculateFanSpeed a minT maxT ≤ calculateFanSpeed b minT maxT) ∧
    (∀ temp minT maxT : ℝ, 30 ≤ calculateFanSpeed temp minT maxT ∧
      calculateFanSpeed temp minT maxT ≤ 255) := by
  have hmin : FAN_SPEED_MIN = 30 := rfl
  have hmax : FAN_SPEED_MAX = 255 := rfl
  refine ⟨?_, ?_, ?_, ?_, ?_⟩
  · intro a b nvme hab
    exact max_le_max (calculateFanSpeed_mono _ _ _ _ hab.le) (le_refl _)
  · intro cpu a b hab
    exact max_le_max (le_refl _) (calculateFanSpeed_mono _ _ _ _ hab.le)
  · intro cpu nvme
    constructor
    · exact le_trans (hmin ▸ (calculateFanSpeed_bounds cpu _ _).1) (le_max_left _ _)
    · exact max_le (hmax ▸ (calculateFanSpeed_bounds cpu _ _).2)
        (hmax ▸ (calculateFanSpeed_bounds nvme _ _).2)
  · intro minT maxT a b hab
    exact calculateFanSpeed_mono _ _ _ _ hab.le
  · intro temp minT maxT
    exact ⟨hmin ▸ (calculateFanSpeed_bounds temp _ _).1,
      hmax ▸ (calculateFanSpeed_bounds temp _ _).2⟩

/-- Witness for `C3_fan_curve_monotone_bounded` at concrete readings. -/
theorem C3_fan_curve_monotone_bounded_witness :
    updateFanSpeedValue 45 50 ≤ updateFanSpeedValue 47 50 ∧
    calculateFanSpeed 45 40 60 ≤ calculateFanSpeed 47 40 60 ∧
    30 ≤ updateFanSpeedValue 45 50 :=
  ⟨C3_fan_curve_monotone_bounded.1 45 47 50 (by norm_num),
    C3_fan_curve_monotone_bounded.2.2.2.1 40 60 45 47 (by norm_num),
    (C3_fan_curve_monotone_bounded.2.2.1 45 50).1⟩

/-! ## Receiver supervisor loop (src/rpi5_client/src/main.c `run_main_loop`,
    src/unnamed/part_007 `run_daemon`)

One iteration of the `while (g_running)` loop: the health probe gate at the
top, then one `serial_read_complete_command` outcome.  The read outcome and
the `serial_check_health` result are inputs; reopening is assumed to
succeed (the retry path on a failed reopen only sleeps and loops). -/

structure DaemonState where
  consecutiveErrors : Nat
  consecutiveTimeouts : Nat
  successfulExchanges : Nat
  startupSyncMode : Bool
  deriving DecidableEq

/-- Outcome of one `serial_read_complete_command` call as seen by the loop:
    a recognized `POLL`, an empty command, an unknown command
    (`bytes_read > 0` each), a read error (`bytes_read < 0`), or a timeout
    (`bytes_read == 0`). -/
inductive ReadOutcome where
  | cmdPoll
  | cmdEmpty
  | cmdUnknown
  | readError
  | timeout
  deriving DecidableEq

/-- Result of one loop iteration: the successor state, whether the
    liveness probe (`serial_check_health`) ran, and whether the link was
    closed and reopened (`serial_close` + `serial_setup`, which performs
    `serial_recover_synchronization`). -/
structure IterResult where
  state : DaemonState
  probed : Bool
  reopened : Bool
  deriving DecidableEq

/-- One iteration of the supervisor loop.  `healthOK` is what
    `serial_check_health` would report if the probe runs. -/
def daemonIter (s : DaemonState) (healthOK : Bool) (ev : ReadOutcome) : IterResult :=
  -- top of loop: probe gated on `consecutive_timeouts > 30 && successful_exchanges == 0`;
  -- when the probe runs and the health check fails, close+reopen+resync and
  -- reset the counters, re-entering startup sync mode
  let probe : Bool := decide (30 < s.consecutiveTimeouts ∧ s.successfulExchanges = 0)
  let probeReopen : Bool := probe && !healthOK
  let s1 : DaemonState :=
    if probeReopen then
      { s with
        consecutiveErrors := 0
        consecutiveTimeouts := 0
        startupSyncMode := true }
    else s
  match ev with
  | .cmdPoll =>
    -- bytes_read > 0: both counters reset; POLL answered, the exchange is
    -- counted, recycling the counter to 1 above 10; sync mode exits
    let se := s1.successfulExchanges + 1
    { state :=
        { s1 with
          consecutiveErrors := 0
          consecutiveTimeouts := 0
          successfulExchanges := if 10 < se then 1 else se
          startupSyncMode := false }
      probed := probe
      reopened := probeReopen }
  | .cmdEmpty =>
    { state := { s1 with consecutiveErrors := 0, consecutiveTimeouts := 0 }
      probed := probe
      reopened := probeReopen }
  | .cmdUnknown =>
    { state := { s1 with consecutiveErrors := 0, consecutiveTimeouts := 0 }
      probed := probe
      reopened := probeReopen }
  | .readError =>
    -- bytes_read < 0: count the error, zero successful_exchanges; at 5
    -- consecutive errors close+reopen+resync and reset both counters
    let ce := s1.consecutiveErrors + 1
    if 5 ≤ ce then
      { state :=
          { s1 with
            consecutiveErrors := 0
            consecutiveTimeouts := 0
            successfulExchanges := 0
            startupSyncMode := true }
        probed := probe
        reopened := true }
    else
      { state := { s1 with consecutiveErrors := ce, successfulExchanges := 0 }
        probed := probe
        reopened := probeReopen }
  | .timeout =>
    -- bytes_read == 0: normal, only counted
    { state := { s1 with consecutiveTimeouts := s1.consecutiveTimeouts + 1 }
      probed := probe
      reopened := probeReopen }

/-- Iterated read-error steps against a healthy link. -/
def errState (s : DaemonState) : DaemonState :=
  (daemonIter s true .readError).state

example :
    (daemonIter (DaemonState.mk 4 7 0 false) true .readError).reopened = true := by decide
example :
    (daemonIter (DaemonState.mk 3 7 0 false) true .readError).reopened = false := by decide

lemma daemonIter_err_lt (s : DaemonState) (h : s.consecutiveErrors + 1 < 5) :
    daemonIter s true .readError =
      IterResult.mk
        { s with consecutiveErrors := s.consecutiveErrors + 1, successfulExchanges := 0 }
        (decide (30 < s.consecutiveTimeouts ∧ s.successfulExchanges = 0)) false := by
  simp only [daemonIter, Bool.not_true, Bool.and_false, Bool.false_eq_true, if_false]
  rw [if_neg (by omega)]

lemma daemonIter_err_ge (s : DaemonState) (h : 4 ≤ s.consecutiveErrors) :
    daemonIter s true .readError =
      IterResult.mk (DaemonState.mk 0 0 0 true)
        (decide (30 < s.consecutiveTimeouts ∧ s.successfulExchanges = 0)) true := by
  simp only [daemonIter, Bool.not_true, Bool.and_false, Bool.false_eq_true, if_false]
  rw [if_pos (by omega)]

lemma daemonIter_probed (s : DaemonState) (healthOK : Bool) (ev : ReadOutcome) :
    (daemonIter s healthOK ev).probed =
      decide (30 < s.consecutiveTimeouts ∧ s.successfulExchanges = 0) := by
  cases ev <;> simp [daemonIter, apply_ite]

lemma daemonIter_timeout_se_pos (t : DaemonState) (h : Bool)
    (hse : t.successfulExchanges ≠ 0) :
    (daemonIter t h .timeout).probed = false ∧
    (daemonIter t h .timeout).reopened = false ∧
    (daemonIter t h .timeout).state =
      { t with consecutiveTimeouts := t.consecutiveTimeouts + 1 } := by
  have hp : decide (30 < t.consecutiveTimeouts ∧ t.successfulExchanges = 0) = false := by
    simp [hse]
  simp [daemonIter, hp]

lemma errState_iterate_ce (s : DaemonState) (h : s.consecutiveErrors = 0) :
    ∀ k, k ≤ 4 → (errState^[k] s).consecutiveErrors = k := by
  intro k
  induction k with
  | zero => intro _; simpa using h
  | succ n ih =>
    intro hk
    have hn := ih (by omega)
    rw [Function.iterate_succ_apply']
    show (daemonIter (errState^[n] s) true .readError).state.consecutiveErrors = n + 1
    rw [daemonIter_err_lt _ (by omega)]
    simp [hn]

/-! ## Claim C4: reconnect after exactly 5 consecutive read errors -/

/-- C4: against a healthy link (so the long-silence probe never reopens),
    a close+reopen happens in an iteration only on a read error arriving
    with 4 errors already accumulated; starting from a reset error counter,
    the first 4 consecutive read errors never reopen, the 5th does, and
    after it both the consecutive-error and consecutive-timeout counters
    are 0 (and startup resync mode is re-entered). -/
theorem C4_reconnect_after_five_consecutive_errors :
    (∀ (s : DaemonState) (ev : ReadOutcome),
      (daemonIter s true ev).reopened = true →
        ev = .readError ∧ 4 ≤ s.consecutiveErrors) ∧
    (∀ s : DaemonState, s.consecutiveErrors = 0 →
      (∀ k, k < 4 → (daemonIter (errState^[k] s) true .readError).reopened = false) ∧
      (daemonIter (errState^[4] s) true .readError).reopened = true ∧
      (errState^[5] s).consecutiveErrors = 0 ∧
      (errState^[5] s).consecutiveTimeouts = 0 ∧
      (errState^[5] s).startupSyncMode = true) := by
  constructor
  · intro s ev hre
    cases ev with
    | readError =>
      refine ⟨rfl, ?_⟩
      by_contra hce
      rw [daemonIter_err_lt s (by omega)] at hre
      simp at hre
    | cmdPoll => simp [daemonIter] at hre
    | cmdEmpty => simp [daemonIter] at hre
    | cmdUnknown => simp [daemonIter] at hre
    | timeout => simp [daemonIter] at hre
  · intro s hce
    have h4 := errState_iterate_ce s hce
    have hstep5 : errState^[5] s = (daemonIter (errState^[4] s) true .readError).state := by
      rw [show (5 : Nat) = 4 + 1 from rfl, Function.iterate_succ_apply']
      rfl
    refine ⟨?_, ?_, ?_, ?_, ?_⟩
    · intro k hk
      rw [daemonIter_err_lt _ (by rw [h4 k (by omega)]; omega)]
    · rw [daemonIter_err_ge _ (by rw [h4 4 (by omega)])]
    · rw [hstep5, daemonIter_err_ge _ (by rw [h4 4 (by omega)])]
    · rw [hstep5, daemonIter_err_ge _ (by rw [h4 4 (by omega)])]
    · rw [hstep5, daemonIter_err_ge _ (by rw [h4 4 (by omega)])]

/-- Witness for `C4_reconnect_after_five_consecutive_errors` from a freshly
    reset supervisor state. -/
theorem C4_reconnect_after_five_consecutive_errors_witness :
    (daemonIter (errState^[3] (DaemonState.mk 0 0 2 false)) true .readError).reopened
        = false ∧
    (daemonIter (errState^[4] (DaemonState.mk 0 0 2 false)) true .readError).reopened
        = true ∧
    (errState^[5] (DaemonState.mk 0 0 2 false)).consecutiveErrors = 0 :=
  ⟨(C4_reconnect_after_five_consecutive_errors.2 _ rfl).1 3 (by decide),
    (C4_reconnect_after_five_consecutive_errors.2 _ rfl).2.1,
    (C4_reconnect_after_five_consecutive_errors.2 _ rfl).2.2.1⟩

/-! ## Claim C5: long-silence probe gating -/

/-- The supervisor state after `k` consecutive timeout iterations with
    health-check inputs drawn from the stream `hs`. -/
def timeoutRun (s : DaemonState) (hs : Nat → Bool) : Nat → DaemonState
  | 0 => s
  | k + 1 => (daemonIter (timeoutRun s hs k) (hs k) .timeout).state

lemma timeoutRun_se (s : DaemonState) (hs : Nat → Bool) (hse : s.successfulExchanges ≠ 0) :
    ∀ k, (timeoutRun s hs k).successfulExchanges = s.successfulExchanges := by
  intro k
  induction k with
  | zero => rfl
  | succ n ih =>
    have := daemonIter_timeout_se_pos (timeoutRun s hs n) (hs n) (by rw [ih]; exact hse)
    show (daemonIter (timeoutRun s hs n) (hs n) .timeout).state.successfulExchanges = _
    rw [this.2.2]
    exact ih

/-- C5: the liveness probe runs in an iteration only when the pre-state has
    consecutive-timeout count strictly above 30 AND successful-exchange
    count 0; and once any successful exchange has been recorded since the
    last reset, an arbitrarily long run of timeout iterations (whatever the
    health check would report) never probes and never reopens. -/
theorem C5_probe_gating :
    (∀ (s : DaemonState) (healthOK : Bool) (ev : ReadOutcome),
      (daemonIter s healthOK ev).probed = true →
        30 < s.consecutiveTimeouts ∧ s.successfulExchanges = 0) ∧
    (∀ (s : DaemonState) (hs : Nat → Bool) (k : Nat), 1 ≤ s.successfulExchanges →
      (daemonIter (timeoutRun s hs k) (hs k) .timeout).probed = false ∧
      (daemonIter (timeoutRun s hs k) (hs k) .timeout).reopened = false) := by
  constructor
  · intro s healthOK ev h
    rw [daemonIter_probed] at h
    exact of_decide_eq_true h
  · intro s hs k hse
    have hne : s.successfulExchanges ≠ 0 := by omega
    have hk : (timeoutRun s hs k).successfulExchanges ≠ 0 := by
      rw [timeoutRun_se s hs hne k]; exact hne
    have := daemonIter_timeout_se_pos (timeoutRun s hs k) (hs k) hk
    exact ⟨this.1, this.2.1⟩

/-- Witness for `C5_probe_gating`: a state with 40 accumulated timeouts but
    a recorded successful exchange never probes; and a probe that did run
    implies the gate held. -/
theorem C5_probe_gating_witness :
    ((daemonIter (timeoutRun (DaemonState.mk 0 40 3 false) (fun _ => false) 7)
        ((fun (_ : Nat) => false) 7) .timeout).probed = false ∧
      (daemonIter (timeoutRun (DaemonState.mk 0 40 3 false) (fun _ => false) 7)
        ((fun (_ : Nat) => false) 7) .timeout).reopened = false) ∧
    (30 < (DaemonState.mk 0 31 0 false).consecutiveTimeouts ∧
      (DaemonState.mk 0 31 0 false).successfulExchanges = 0) :=
  ⟨C5_probe_gating.2 (DaemonState.mk 0 40 3 false) (fun _ => false) 7 (by decide),
    C5_probe_gating.1 (DaemonState.mk 0 31 0 false) false .timeout (by decide)⟩

/-! ## Endpoint table and actuator update (src/unnamed/part_010
    `TemperatureSensor`, src/src/main.cpp `FanController::updateFanSpeed`)

The table is the list of `NUM_DEVICES = 4` slots; the claims quantify over
arbitrary table states, so the list length is left general. -/

/-- One step of the `getHighestTemperatures` loop body: a valid slot raises
    each running maximum when its reading is strictly greater. -/
def highestStep (acc : ℚ × ℚ) (d : SensorDevice) : ℚ × ℚ :=
  if d.isValid then
    ((if acc.1 < d.cpuTemp then d.cpuTemp else acc.1),
     (if acc.2 < d.nvmeTemp then d.nvmeTemp else acc.2))
  else acc

/-- `TemperatureSensor::getHighestTemperatures` (src/unnamed/part_010 lines
    74-88): fold from `(0, 0)` over all slots. -/
def getHighestTemperatures (st : List SensorDevice) : ℚ × ℚ :=
  st.foldl highestStep (0, 0)

/-- `TemperatureSensor::hasTemperatureData` (src/unnamed/part_010 lines
    90-97): some slot is valid with a strictly positive reading. -/
def hasTemperatureData (st : List SensorDevice) : Bool :=
  st.any fun d => d.isValid && (decide (0 < d.cpuTemp) || decide (0 < d.nvmeTemp))

/-- `FanController::updateFanSpeed` (src/src/main.cpp lines 146-202) as a
    function of the table and the currently applied PWM value: result is the
    applied value afterwards and whether `analogWrite` was called.  With no
    temperature data the floor is applied and written unconditionally;
    otherwise the curve output is written only when it differs. -/
noncomputable def fanUpdate (st : List SensorDevice) (current : ℤ) : ℤ × Bool :=
  if hasTemperatureData st = false then (FAN_SPEED_MIN, true)
  else
    if updateFanSpeedValue ((getHighestTemperatures st).1 : ℝ)
        ((getHighestTemperatures st).2 : ℝ) ≠ current then
      (updateFanSpeedValue ((getHighestTemperatures st).1 : ℝ)
        ((getHighestTemperatures st).2 : ℝ), true)
    else (current, false)

/-! ## Claim C6: actuation only on change -/

/-- Four slots all storing zero readings while marked valid and connected. -/
def zeroedTable : List SensorDevice := List.replicate 4 (SensorDevice.mk 0 0 true 0 true)

/-- C6 (counterexample): the claim fails in the no-data branch.  With all
    readings zero (even on slots marked valid and connected) and the floor
    value 30 already applied, `updateFanSpeed` still calls `analogWrite`
    although the newly computed value equals the applied one. -/
theorem C6_counterexample_redundant_floor_write :
    (fanUpdate zeroedTable 30).2 = true ∧ (fanUpdate zeroedTable 30).1 = 30 := by
  have h : hasTemperatureData zeroedTable = false := by decide
  constructor <;> simp [fanUpdate, h, FAN_SPEED_MIN]

/-- C6 (amended): when temperature data is present, the output is pushed to
    `analogWrite` exactly when the newly computed value differs from the
    previously applied value (no write when they are equal); in the no-data
    branch the floor is applied and written unconditionally. -/
theorem C6_write_only_on_change_when_data :
    (∀ (st : List SensorDevice) (current : ℤ), hasTemperatureData st = true →
      ((fanUpdate st current).2 = true ↔
        updateFanSpeedValue ((getHighestTemperatures st).1 : ℝ)
          ((getHighestTemperatures st).2 : ℝ) ≠ current) ∧
      ((fanUpdate st current).2 = false → (fanUpdate st current).1 = current)) ∧
    (∀ (st : List SensorDevice) (current : ℤ), hasTemperatureData st = false →
      fanUpdate st current = (FAN_SPEED_MIN, true)) := by
  constructor
  · intro st current hdata
    unfold fanUpdate
    rw [if_neg (by simp [hdata])]
    by_cases hne : updateFanSpeedValue ((getHighestTemperatures st).1 : ℝ)
        ((getHighestTemperatures st).2 : ℝ) ≠ current
    · rw [if_pos hne]
      simpa using hne
    · rw [if_neg hne]
      push_neg at hne
      simp [hne]
  · intro st current hdata
    unfold fanUpdate
    rw [if_pos (by simp [hdata])]

/-- Witness for `C6_write_only_on_change_when_data` at a table with one
    reporting device. -/
theorem C6_write_only_on_change_when_data_witness :
    ((fanUpdate [SensorDevice.mk 50 45 true 0 true,
        SensorDevice.mk 0 0 false 0 false, SensorDevice.mk 0 0 false 0 false,
        SensorDevice.mk 0 0 false 0 false] 30).2 = true ↔
      updateFanSpeedValue
        ((getHighestTemperatures [SensorDevice.mk 50 45 true 0 true,
          SensorDevice.mk 0 0 false 0 false, SensorDevice.mk 0 0 false 0 false,
          SensorDevice.mk 0 0 false 0 false]).1 : ℝ)
        ((getHighestTemperatures [SensorDevice.mk 50 45 true 0 true,
          SensorDevice.mk 0 0 false 0 false, SensorDevice.mk 0 0 false 0 false,
          SensorDevice.mk 0 0 false 0 false]).2 : ℝ) ≠ 30) ∧
    fanUpdate [SensorDevice.mk 0 0 true 0 true] 200 = (FAN_SPEED_MIN, true) :=
  ⟨(C6_write_only_on_change_when_data.1 _ 30 (by decide)).1,
    C6_write_only_on_change_when_data.2 [SensorDevice.mk 0 0 true 0 true] 200 (by decide)⟩

/-! ## Wire-format codec (src/rpi5_client/src/temperature.c
    `temperature_format_response`, src/unnamed/part_010
    `TemperatureSensor::parseTemperatureData`) -/

/-- Accumulate a decimal digit run, as `strtod` does. -/
def digitsToNat (ds : List Char) : Nat :=
  ds.foldl (fun n c => 10 * n + (c.toNat - 48)) 0

/-- Arduino `String::toFloat` (`strtod` on the leading numeric run): skip
    leading blanks, optional sign, integer digits, optional `.` and
    fraction digits; anything else ends the parse (0 when no digits). -/
def toFloatQ (s : List Char) : ℚ :=
  let s1 := s.dropWhile fun c => c = ' ' ∨ c = '\t'
  let neg : Bool := match s1 with
    | '-' :: _ => true
    | _ => false
  let s2 : List Char := match s1 with
    | '-' :: r => r
    | '+' :: r => r
    | r => r
  let intDigits := s2.takeWhile Char.isDigit
  let s3 := s2.dropWhile Char.isDigit
  let fracDigits : List Char := match s3 with
    | '.' :: r => r.takeWhile Char.isDigit
    | _ => []
  let mag : ℚ := (digitsToNat intDigits : ℚ) +
    (digitsToNat fracDigits : ℚ) / (10 : ℚ) ^ fracDigits.length
  if neg then -mag else mag

/-- Two-digit zero-padded fraction field of `%.2f`. -/
def pad2 (n : Nat) : String :=
  if n < 10 then "0" ++ toString n else toString n

/-- `%.2f`: round to the nearest hundredth and print two decimals. -/
def formatTwoDecimals (q : ℚ) : String :=
  let n : ℤ := if 0 ≤ q then ⌊q * 100 + 1 / 2⌋ else -⌊(-q) * 100 + 1 / 2⌋
  let a := n.natAbs
  (if n < 0 then "-" else "") ++ toString (a / 100) ++ "." ++ pad2 (a % 100)

/-- `temperature_format_response` (src/rpi5_client/src/temperature.c lines
    99-105): `snprintf(buffer, size, "CPU:%.2f|NVME:%.2f\n", cpu, nvme)`. -/
def temperature_format_response (cpu nvme : ℚ) : String :=
  "CPU:" ++ formatTwoDecimals cpu ++ "|NVME:" ++ formatTwoDecimals nvme ++ "\n"

/-- `hay` begins with `pat`. -/
def startsWithL : List Char → List Char → Bool
  | _, [] => true
  | [], _ :: _ => false
  | a :: as, b :: bs => a = b && startsWithL as bs

/-- Arduino `String::indexOf`: index of the first occurrence of `pat`. -/
def findSubstrIdx : List Char → List Char → Option Nat
  | [], pat => if startsWithL [] pat then some 0 else none
  | a :: t, pat =>
    if startsWithL (a :: t) pat then some 0
    else (findSubstrIdx t pat).map (· + 1)

/-- The numeric extraction of `TemperatureSensor::parseTemperatureData`
    (src/unnamed/part_010 lines 20-65): locate `"CPU:"` and `"|NVME:"`,
    cut `substring(cpuPos+4, nvmePos)` and `substring(nvmePos+6)`, and
    convert both with `toFloat`; `none` when either marker is missing. -/
def parseTemperatureDataQ (data : List Char) : Option (ℚ × ℚ) :=
  match findSubstrIdx data ['C', 'P', 'U', ':'],
      findSubstrIdx data ['|', 'N', 'V', 'M', 'E', ':'] with
  | some cpuPos, some nvmePos =>
    some (toFloatQ ((data.take nvmePos).drop (cpuPos + 4)),
      toFloatQ (data.drop (nvmePos + 6)))
  | _, _ => none

/-- The state update `parseTemperatureData` performs on its device slot on
    a successful parse: store both readings, mark the slot valid and the
    device connected, reset the missed-poll counter. -/
def applyParse (d : SensorDevice) (data : List Char) : SensorDevice :=
  match parseTemperatureDataQ data with
  | some (c, n) =>
    { d with
      cpuTemp := c
      nvmeTemp := n
      isValid := true
      connected := true
      missedPolls := 0 }
  | none => d

/-! ## Claim C9: wire-format round trip -/

/-- C9: encoding the readings (42.50, 39.10) produces exactly
    `"CPU:42.50|NVME:39.10\n"`, and decoding that payload after stripping
    the line terminator recovers both readings within tolerance 0.01 (here:
    exactly). -/
theorem C9_wire_format_round_trip :
    temperature_format_response (42.5 : ℚ) (39.1 : ℚ) = "CPU:42.50|NVME:39.10\n" ∧
    ∃ c n : ℚ, parseTemperatureDataQ ("CPU:42.50|NVME:39.10".data) = some (c, n) ∧
      |c - 42.5| ≤ (0.01 : ℚ) ∧ |n - 39.1| ≤ (0.01 : ℚ) := by
  refine ⟨by with_unfolding_all rfl, 42.5, 39.1, by with_unfolding_all rfl,
    by norm_num, by norm_num⟩

/-! ### The worst-reading fold ignores nonpositive readings (claim C10) -/

lemma highestStep_nonneg (acc : ℚ × ℚ) (d : SensorDevice) (h1 : 0 ≤ acc.1)
    (h2 : 0 ≤ acc.2) : 0 ≤ (highestStep acc d).1 ∧ 0 ≤ (highestStep acc d).2 := by
  unfold highestStep
  by_cases hv : d.isValid
  · rw [if_pos hv]
    constructor
    · dsimp only
      by_cases hc : acc.1 < d.cpuTemp
      · rw [if_pos hc]; linarith
      · rw [if_neg hc]; exact h1
    · dsimp only
      by_cases hc : acc.2 < d.nvmeTemp
      · rw [if_pos hc]; linarith
      · rw [if_neg hc]; exact h2
  · rw [if_neg hv]; exact ⟨h1, h2⟩

lemma foldl_highestStep_nonneg (st : List SensorDevice) : ∀ acc : ℚ × ℚ,
    0 ≤ acc.1 → 0 ≤ acc.2 →
    0 ≤ (st.foldl highestStep acc).1 ∧ 0 ≤ (st.foldl highestStep acc).2 := by
  induction st with
  | nil => intro acc h1 h2; exact ⟨h1, h2⟩
  | cons d ds ih =>
    intro acc h1 h2
    rw [List.foldl_cons]
    have hs := highestStep_nonneg acc d h1 h2
    exact ih _ hs.1 hs.2

lemma highestStep_skip (acc : ℚ × ℚ) (d : SensorDevice) (h1 : 0 ≤ acc.1)
    (h2 : 0 ≤ acc.2) (hc : d.cpuTemp ≤ 0) (hn : d.nvmeTemp ≤ 0) :
    highestStep acc d = acc := by
  unfold highestStep
  by_cases hv : d.isValid
  · rw [if_pos hv, if_neg (by linarith), if_neg (by linarith)]
  · rw [if_neg hv]

lemma getHighest_insensitive (pre post : List SensorDevice) (d d' : SensorDevice)
    (hceq : d.cpuTemp = d'.cpuTemp) (hneq : d.nvmeTemp = d'.nvmeTemp)
    (hc : d.cpuTemp ≤ 0) (hn : d.nvmeTemp ≤ 0) :
    getHighestTemperatures (pre ++ d :: post) =
      getHighestTemperatures (pre ++ d' :: post) := by
  unfold getHighestTemperatures
  rw [List.foldl_append, List.foldl_append, List.foldl_cons, List.foldl_cons]
  have hacc := foldl_highestStep_nonneg pre (0, 0) (le_refl 0) (le_refl 0)
  rw [highestStep_skip _ d hacc.1 hacc.2 hc hn,
    highestStep_skip _ d' hacc.1 hacc.2 (hceq ▸ hc) (hneq ▸ hn)]

lemma hasData_insensitive (pre post : List SensorDevice) (d d' : SensorDevice)
    (hceq : d.cpuTemp = d'.cpuTemp) (hneq : d.nvmeTemp = d'.nvmeTemp)
    (hc : d.cpuTemp ≤ 0) (hn : d.nvmeTemp ≤ 0) :
    hasTemperatureData (pre ++ d :: post) = hasTemperatureData (pre ++ d' :: post) := by
  unfold hasTemperatureData
  rw [List.any_append, List.any_append, List.any_cons, List.any_cons]
  have hd : decide (0 < d.cpuTemp) = false := decide_eq_false (not_lt.mpr hc)
  have hd2 : decide (0 < d.nvmeTemp) = false := decide_eq_false (not_lt.mpr hn)
  have hd' : decide (0 < d'.cpuTemp) = false :=
    decide_eq_false (not_lt.mpr (hceq ▸ hc))
  have hd2' : decide (0 < d'.nvmeTemp) = false :=
    decide_eq_false (not_lt.mpr (hneq ▸ hn))
  rw [hd, hd2, hd', hd2']
  simp

/-! ## Claim C10: zero readings are treated as absent data -/

/-- C10: the actuator update decides "has any endpoint ever reported" by
    strictly positive stored readings, not by the validity/connected flags.
    A slot whose stored CPU and NVME readings are both ≤ 0 contributes
    nothing: its flags can be changed arbitrarily without affecting the
    update.  When every slot's readings are ≤ 0 the update forces the floor
    (and writes it).  A well-formed response parsing to 0.00/0.00 is
    recorded as valid, with both readings stored as 0, yet the update still
    forces the floor. -/
theorem C10_zero_readings_treated_absent :
    (∀ (pre post : List SensorDevice) (d d' : SensorDevice) (cur : ℤ),
      d.cpuTemp = d'.cpuTemp → d.nvmeTemp = d'.nvmeTemp →
      d.cpuTemp ≤ 0 → d.nvmeTemp ≤ 0 →
      fanUpdate (pre ++ d :: post) cur = fanUpdate (pre ++ d' :: post) cur) ∧
    (∀ (st : List SensorDevice) (cur : ℤ),
      (∀ e ∈ st, e.cpuTemp ≤ 0 ∧ e.nvmeTemp ≤ 0) →
      fanUpdate st cur = (FAN_SPEED_MIN, true)) ∧
    ((applyParse (SensorDevice.mk 0 0 false 0 false)
        ("CPU:0.00|NVME:0.00".data)).isValid = true ∧
      (applyParse (SensorDevice.mk 0 0 false 0 false)
        ("CPU:0.00|NVME:0.00".data)).cpuTemp = 0 ∧
      (applyParse (SensorDevice.mk 0 0 false 0 false)
        ("CPU:0.00|NVME:0.00".data)).nvmeTemp = 0 ∧
      fanUpdate [applyParse (SensorDevice.mk 0 0 false 0 false)
        ("CPU:0.00|NVME:0.00".data)] 200 = (FAN_SPEED_MIN, true)) := by
  refine ⟨?_, ?_, ?_, ?_, ?_, ?_⟩
  · intro pre post d d' cur hceq hneq hc hn
    unfold fanUpdate
    rw [hasData_insensitive pre post d d' hceq hneq hc hn,
      getHighest_insensitive pre post d d' hceq hneq hc hn]
  · intro st cur h
    have hdata : hasTemperatureData st = false := by
      rw [hasTemperatureData, List.any_eq_false]
      intro e he
      have h1 : decide (0 < e.cpuTemp) = false := decide_eq_false (not_lt.mpr (h e he).1)
      have h2 : decide (0 < e.nvmeTemp) = false := decide_eq_false (not_lt.mpr (h e he).2)
      simp [h1, h2]
    unfold fanUpdate
    rw [if_pos hdata]
  · with_unfolding_all rfl
  · with_unfolding_all rfl
  · with_unfolding_all rfl
  · have hdata : hasTemperatureData [applyParse (SensorDevice.mk 0 0 false 0 false)
        ("CPU:0.00|NVME:0.00".data)] = false := by with_unfolding_all rfl
    unfold fanUpdate
    rw [if_pos hdata]

/-- Witness for `C10_zero_readings_treated_absent`: flipping the valid and
    connected flags of an all-zero slot does not change the update, and an
    all-zero table forces the floor. -/
theorem C10_zero_readings_treated_absent_witness :
    fanUpdate [SensorDevice.mk 0 0 true 0 true] 200 =
      fanUpdate [SensorDevice.mk 0 0 false 0 false] 200 ∧
    fanUpdate zeroedTable 200 = (FAN_SPEED_MIN, true) :=
  ⟨C10_zero_readings_treated_absent.1 [] [] (SensorDevice.mk 0 0 true 0 true)
      (SensorDevice.mk 0 0 false 0 false) 200 rfl rfl (by norm_num) (by norm_num),
    C10_zero_readings_treated_absent.2.1 zeroedTable 200 (by decide)⟩
